import Mathlib

/-!
# Verification of the go-mcp stdio JSON-RPC dispatcher

A shallow embedding of the core of the go-mcp repository: the JSON-RPC
envelope types and helpers (`mcp/types`, part of the `types` package),
the tool registry (`tools` package: `NewRegistration`, `Register`,
`Registered`) and the stdio dispatcher (`router` package: `Run`,
`dispatch`, `respondWithError`, the builtin handlers).  `main.go` links
exactly this combination (`router.NewServer(os.Stdin, os.Stdout, ...)`).

Modelling conventions:
* Go byte slices backing JSON-RPC identifiers are modelled as a pair of
  an allocation address and the byte contents (`Slice`), so that the
  "fresh storage" contract of `CloneID` is expressible: the dispatcher
  is threaded with a fresh-address supply, one address per iteration.
* `json.RawMessage` parameter payloads are modelled as an optional
  already-parsed JSON value (`Option Json`); `none` models a nil/empty
  raw message (`len(req.Params) == 0`).  The strict decoding performed
  by `DecodeParams` (`DisallowUnknownFields`) is implemented over that
  JSON value; Go's `encoding/json` is external library code.
* Go `error` values returned by tool handlers are modelled as a message
  string (what `Error()` renders) together with an optional structured
  payload (`GoError.detail`) standing for whatever typed data a concrete
  error implementation carries; only the message crosses the JSON-RPC
  boundary.
* The method-handler table is populated once by `registerBuiltins` and
  never mutated, so it is modelled as the fixed function
  `handlersTable`.  The `initialized` boolean field of the Go server is
  modelled by the `inited` field of `ServerCore`.
* Context cancellation and the logger are not modelled: all claims below
  quantify over runs in which the ambient context is never cancelled,
  and log output is not an observable of any claim.
-/

namespace GoMcp

/-- A parsed JSON document, the model of decoded `json.RawMessage`
payloads.  Object fields keep their textual order; duplicate keys follow
Go's last-value-wins decoding via `lookupLast`. -/
inductive Json where
  | null
  | bool (b : Bool)
  | num (n : Int)
  | str (s : String)
  | arr (items : List Json)
  | obj (fields : List (String × Json))

/-- Go `encoding/json` keeps the last value for a duplicated object key. -/
def lookupLast (fields : List (String × Json)) (key : String) : Option Json :=
  fields.foldl (fun acc p => if p.1 = key then some p.2 else acc) none

/-- A Go byte slice: an allocation address plus the byte contents.  Two
slices with equal `data` but different `addr` are structurally equal byte
strings living in distinct backing buffers. -/
structure Slice where
  addr : Nat
  data : List Nat
deriving DecidableEq

/-- `JSONRPCVersion` from `types` ("the version of the JSON-RPC protocol
we speak"). -/
def JSONRPCVersion : String := "2.0"

/-- `ProtocolVersion` from `types`. -/
def ProtocolVersion : String := "2024-06-24"

/-- `types.Error`, the JSON-RPC error object `{code, message, data}`.
`data` is `none` when the Go field is left nil (it is `omitempty`). -/
structure Error where
  code : Int
  message : String
  data : Option Json

def CodeParseError : Int := -32700
def CodeInvalidRequest : Int := -32600
def CodeMethodNotFound : Int := -32601
def CodeInvalidParams : Int := -32602
def CodeInternalError : Int := -32603
def CodeApplicationError : Int := -32001
def CodeToolError : Int := -32002

/-- One hexadecimal digit, lower case, as emitted by Go's escaping. -/
def hexDigit (n : Nat) : Char :=
  if n < 10 then Char.ofNat (48 + n) else Char.ofNat (87 + n)

/-- Four hex digits for a non-printable rune escape. -/
def hex4 (n : Nat) : String :=
  ⟨[hexDigit (n / 4096 % 16), hexDigit (n / 256 % 16),
    hexDigit (n / 16 % 16), hexDigit (n % 16)]⟩

/-- Escaping of a single character inside a Go `%q` quoted string
(`strconv.Quote`): printable ASCII is kept verbatim, quote and backslash
are backslash-escaped, common control characters use their mnemonic
escape, anything else an explicit numeric escape. -/
def goQuoteChar (c : Char) : String :=
  if c = '"' then "\\\""
  else if c = '\\' then "\\\\"
  else if c = '\n' then "\\n"
  else if c = '\t' then "\\t"
  else if c = '\r' then "\\r"
  else if 32 ≤ c.toNat ∧ c.toNat < 127 then String.singleton c
  else "\\u" ++ hex4 c.toNat

def goQuoteCore : List Char → String
  | [] => ""
  | c :: cs => goQuoteChar c ++ goQuoteCore cs

/-- The model of `fmt.Sprintf("%q", s)`: the string quoted and escaped. -/
def goQuote (s : String) : String :=
  "\"" ++ goQuoteCore s.data ++ "\""

/-- A character that `%q` reproduces verbatim (printable ASCII other
than quote and backslash). -/
def simpleChar (c : Char) : Prop :=
  c ≠ '"' ∧ c ≠ '\\' ∧ 32 ≤ c.toNat ∧ c.toNat < 127

instance (c : Char) : Decidable (simpleChar c) := by
  unfold simpleChar; infer_instance

/-- `types.ContentItem`: a minimal text-based MCP content payload. -/
structure ContentItem where
  type : String
  text : String
deriving DecidableEq

/-- `types.CallToolResult`: wraps the content list returned by a tool. -/
structure CallToolResult where
  content : List ContentItem
deriving DecidableEq

/-- `tools.ToolDefinition`: name, description and input schema.  The
schema (`JSONSchema`, a Go map) is `none` when the Go map is nil. -/
structure ToolDefinition where
  name : String
  description : String
  inputSchema : Option Json

/-- The schema `JSONSchema{"type": "object"}` substituted for a nil one. -/
def defaultSchema : Json :=
  Json.obj [("type", Json.str "object")]

/-- The nil-schema normalisation performed inside `tools.NewRegistration`
(and inline in `mcp.RegisterTool`). -/
def sanitize (d : ToolDefinition) : ToolDefinition :=
  match d.inputSchema with
  | none => { d with inputSchema := some defaultSchema }
  | some _ => d

/-- A Go `error` value as a tool handler returns it: the rendered
message (`Error()`) plus whatever structured payload the concrete error
type carries.  Only the message survives the JSON-RPC boundary. -/
structure GoError where
  message : String
  detail : Option Json

/-- `tools.Handler` / `mcp.ToolHandler`: raw arguments to either a
result (possibly nil, modelled `none`) or a Go error. -/
def ToolHandler : Type :=
  Option Json → Except GoError (Option CallToolResult)

/-- `tools.Registration`: a definition bound to its handler. -/
structure Registration where
  definition : ToolDefinition
  handler : ToolHandler

/-- The Go `error` values produced by registration (`fmt.Errorf` in
`NewRegistration` and `Register`); the callers only test nilness. -/
inductive RegErr where
  | emptyName
  | nilHandler (name : String)
  | duplicate (name : String)

/-- `tools.NewRegistration`: reject an empty name or a nil handler,
normalise a nil input schema. -/
def NewRegistration (d : ToolDefinition) (h : Option ToolHandler) :
    Except RegErr Registration :=
  if d.name = "" then .error .emptyName
  else
    match h with
    | none => .error (.nilHandler d.name)
    | some f => .ok ⟨sanitize d, f⟩

/-- The registry state: `index` models the Go map `registryIndex`
(`tools` package) / `s.tools` (router) as a name-keyed association list
with unique keys, `order` models `registryOrder` / `s.toolOrder`. -/
structure Registry where
  index : List (String × Registration)
  order : List String

def emptyRegistry : Registry := ⟨[], []⟩

/-- First-match association lookup, the model of a Go map read (the
registry never holds a duplicated key). -/
def assocFind {α : Type} (l : List (String × α)) (n : String) : Option α :=
  match l with
  | [] => none
  | (k, v) :: rest => if k = n then some v else assocFind rest n

/-- The key sequence of an association list. -/
def keysOf {α : Type} (l : List (String × α)) : List String :=
  l.map Prod.fst

/-- `tools.Register` / `router.Server.RegisterTool`: validate through
`NewRegistration`, reject a name that already exists, otherwise append
to both the map and the insertion-order list. -/
def Register (reg : Registry) (d : ToolDefinition) (h : Option ToolHandler) :
    Registry × Option RegErr :=
  match NewRegistration d h with
  | .error e => (reg, some e)
  | .ok r =>
    match assocFind reg.index r.definition.name with
    | some _ => (reg, some (.duplicate r.definition.name))
    | none =>
      (⟨reg.index ++ [(r.definition.name, r)],
        reg.order ++ [r.definition.name]⟩, none)

/-- A sequence of registration calls applied in order. -/
def registerSeq (reg : Registry) :
    List (ToolDefinition × Option ToolHandler) → Registry
  | [] => reg
  | (d, h) :: rest => registerSeq (Register reg d h).1 rest

/-- The listing loop shared by `tools.Registered` and the router's
`handleListTools`: walk the insertion order and read each registration
from the map (a missing key would yield Go's zero `Registration`). -/
def listTools (reg : Registry) : List ToolDefinition :=
  reg.order.map (fun n =>
    match assocFind reg.index n with
    | some r => r.definition
    | none => ⟨"", "", none⟩)

/-- `types.Request`: a JSON-RPC request or notification envelope as the
stream decoder hands it to the loop.  `id = none` models a nil `*ID`
(notification); `params = none` models `len(req.Params) == 0`. -/
structure Request where
  jsonrpc : String
  id : Option Slice
  method : String
  params : Option Json

/-- `types.ClientInfo`. -/
structure ClientInfo where
  name : String
  version : String
deriving DecidableEq

/-- `types.InitializeParams` (capabilities kept raw, exactly as the Go
struct keeps a `json.RawMessage`). -/
structure InitializeParams where
  clientInfo : Option ClientInfo
  protocolVersion : String
  capabilities : Option Json
  metadata : List (String × String)

/-- `types.ServerInfo`. -/
structure ServerInfo where
  name : String
  version : String
deriving DecidableEq

/-- `types.ToolCapability`. -/
structure ToolCapability where
  list : Bool
  call : Bool
deriving DecidableEq

/-- `types.ServerCapabilities`. -/
structure ServerCapabilities where
  tools : Option ToolCapability
deriving DecidableEq

/-- `types.InitializeResult` (metadata never set by the server). -/
structure InitializeResult where
  protocolVersion : String
  capabilities : ServerCapabilities
  serverInfo : ServerInfo
deriving DecidableEq

/-- `types.PingParams`. -/
structure PingParams where
  message : String
deriving DecidableEq

/-- `types.PingResult`. -/
structure PingResult where
  status : String
  message : String
deriving DecidableEq

/-- `types.CallToolParams`: `arguments` stays raw
(`json.RawMessage`), `none` when absent. -/
structure CallToolParams where
  name : String
  arguments : Option Json

/-- The first field of a decoded object that strict decoding
(`DisallowUnknownFields`) rejects. -/
def unknownField (fields : List (String × Json)) (allowed : List String) :
    Option String :=
  match fields with
  | [] => none
  | (k, _) :: rest => if k ∈ allowed then unknownField rest allowed else some k

/-- Strict decode of `types.ClientInfo` (Go applies
`DisallowUnknownFields` to nested structs as well).  `null` leaves the
zero value; a missing string field keeps the Go zero string. -/
def decodeClientInfo (j : Json) : Except String (Option ClientInfo) :=
  match j with
  | .null => .ok none
  | .obj fields =>
    match unknownField fields ["name", "version"] with
    | some bad => .error ("json: unknown field " ++ goQuote bad)
    | none =>
      match lookupLast fields "name", lookupLast fields "version" with
      | some (.str n), some (.str v) => .ok (some ⟨n, v⟩)
      | some (.str n), none => .ok (some ⟨n, ""⟩)
      | none, some (.str v) => .ok (some ⟨"", v⟩)
      | none, none => .ok (some ⟨"", ""⟩)
      | _, _ => .error "json: cannot unmarshal value into clientInfo"
  | _ => .error "json: cannot unmarshal value into clientInfo"

/-- Strict decode of a `map[string]string` metadata object. -/
def decodeMetadata (fields : List (String × Json)) :
    Except String (List (String × String)) :=
  match fields with
  | [] => .ok []
  | (k, .str v) :: rest =>
    match decodeMetadata rest with
    | .ok tail => .ok ((k, v) :: tail)
    | .error e => .error e
  | (_, _) :: _ => .error "json: cannot unmarshal value into metadata"

/-- Strict decode of `types.InitializeParams` as
`types.DecodeParams` performs it. -/
def decodeInitializeParams (j : Json) : Except String InitializeParams :=
  match j with
  | .null => .ok ⟨none, "", none, []⟩
  | .obj fields =>
    match unknownField fields
        ["clientInfo", "protocolVersion", "capabilities", "metadata"] with
    | some bad => .error ("json: unknown field " ++ goQuote bad)
    | none =>
      match (match lookupLast fields "clientInfo" with
             | none => .ok none
             | some cj => decodeClientInfo cj : Except String (Option ClientInfo)) with
      | .error e => .error e
      | .ok ci =>
        match (match lookupLast fields "protocolVersion" with
               | none => .ok ""
               | some .null => .ok ""
               | some (.str s) => .ok s
               | some _ => .error "json: cannot unmarshal value into protocolVersion"
               : Except String String) with
        | .error e => .error e
        | .ok pv =>
          match (match lookupLast fields "metadata" with
                 | none => .ok []
                 | some .null => .ok []
                 | some (.obj mf) => decodeMetadata mf
                 | some _ => .error "json: cannot unmarshal value into metadata"
                 : Except String (List (String × String))) with
          | .error e => .error e
          | .ok md => .ok ⟨ci, pv, lookupLast fields "capabilities", md⟩
  | _ => .error "json: cannot unmarshal value into InitializeParams"

/-- Strict decode of `types.PingParams`. -/
def decodePingParams (j : Json) : Except String PingParams :=
  match j with
  | .null => .ok ⟨""⟩
  | .obj fields =>
    match unknownField fields ["message"] with
    | some bad => .error ("json: unknown field " ++ goQuote bad)
    | none =>
      match lookupLast fields "message" with
      | none => .ok ⟨""⟩
      | some .null => .ok ⟨""⟩
      | some (.str s) => .ok ⟨s⟩
      | some _ => .error "json: cannot unmarshal value into message"
  | _ => .error "json: cannot unmarshal value into PingParams"

/-- Strict decode of `types.CallToolParams`. -/
def decodeCallToolParams (j : Json) : Except String CallToolParams :=
  match j with
  | .null => .ok ⟨"", none⟩
  | .obj fields =>
    match unknownField fields ["name", "arguments"] with
    | some bad => .error ("json: unknown field " ++ goQuote bad)
    | none =>
      match lookupLast fields "name" with
      | none => .ok ⟨"", lookupLast fields "arguments"⟩
      | some .null => .ok ⟨"", lookupLast fields "arguments"⟩
      | some (.str s) => .ok ⟨s, lookupLast fields "arguments"⟩
      | some _ => .error "json: cannot unmarshal value into name"
  | _ => .error "json: cannot unmarshal value into CallToolParams"

/-- `types.CloneID`: a nil identifier stays nil, otherwise the bytes
are copied into a freshly allocated buffer (`make` + `copy`); `fresh`
is the address the allocator hands out. -/
def cloneID (id : Option Slice) (fresh : Nat) : Option Slice :=
  match id with
  | none => none
  | some s => some ⟨fresh, s.data⟩

/-- The `result` value of a response: the typed payloads the builtin
handlers return, plus `struct{}{}` substituted for a nil result. -/
inductive GoValue where
  | emptyObj
  | initResult (r : InitializeResult)
  | pingResult (r : PingResult)
  | listToolsResult (tools : List ToolDefinition)
  | callToolResult (r : CallToolResult)

/-- `types.Response`: the envelope handed to the response writer. -/
structure Response where
  jsonrpc : String
  id : Option Slice
  result : Option GoValue
  error : Option Error

/-- The mutable server state a handler can observe or update: the tool
registry (`s.tools` + `s.toolOrder`), the advertised info, and the
`initialized` flag (`inited` here). -/
structure ServerCore where
  tools : Registry
  info : ServerInfo
  inited : Bool

/-- `router.MethodHandler`, with the receiver state made explicit:
result value, error, and the possibly-updated server state. -/
def MethodHandler : Type :=
  ServerCore → Request → Option GoValue × Option Error × ServerCore

/-- `handleInitialize`: strict-decode the optional params, set the
`initialized` flag, return protocol version, capabilities and info. -/
def handleInitialize : MethodHandler := fun s req =>
  match (match req.params with
         | none => .ok ⟨none, "", none, []⟩
         | some j => decodeInitializeParams j : Except String InitializeParams) with
  | .error e => (none, some ⟨CodeInvalidParams, e, none⟩, s)
  | .ok _ =>
    (some (.initResult
      ⟨ProtocolVersion, ⟨some ⟨true, true⟩⟩, s.info⟩),
     none, { s with inited := true })

/-- `handlePing`: strict-decode the optional params, echo the message. -/
def handlePing : MethodHandler := fun s req =>
  match (match req.params with
         | none => .ok ⟨""⟩
         | some j => decodePingParams j : Except String PingParams) with
  | .error e => (none, some ⟨CodeInvalidParams, e, none⟩, s)
  | .ok p => (some (.pingResult ⟨"ok", p.message⟩), none, s)

/-- `handleListTools`: walk `toolOrder` and return the definitions. -/
def handleListTools : MethodHandler := fun s _ =>
  (some (.listToolsResult (listTools s.tools)), none, s)

/-- `handleCallTool`: reject missing params, strict-decode them, reject
an empty name, look the tool up, run its handler, translate a handler
failure into a tool error carrying only the rendered message. -/
def handleCallTool : MethodHandler := fun s req =>
  match req.params with
  | none => (none, some ⟨CodeInvalidParams, "missing params", none⟩, s)
  | some j =>
    match decodeCallToolParams j with
    | .error m => (none, some ⟨CodeInvalidParams, m, none⟩, s)
    | .ok p =>
      if p.name = "" then
        (none, some ⟨CodeInvalidParams, "missing tool name", none⟩, s)
      else
        match assocFind s.tools.index p.name with
        | none =>
          (none, some ⟨CodeApplicationError,
            "tool " ++ goQuote p.name ++ " not registered", none⟩, s)
        | some r =>
          match r.handler p.arguments with
          | .error e => (none, some ⟨CodeToolError, e.message, none⟩, s)
          | .ok none => (some (.callToolResult ⟨[]⟩), none, s)
          | .ok (some res) => (some (.callToolResult res), none, s)

/-- The method table installed once by `registerBuiltins` and never
changed afterwards. -/
def handlersTable (m : String) : Option MethodHandler :=
  if m = "initialize" then some handleInitialize
  else if m = "ping" then some handlePing
  else if m = "tools/list" then some handleListTools
  else if m = "tools/call" then some handleCallTool
  else none

/-- `respondWithError`: drop the error for a notification, otherwise
emit an error response whose identifier is a fresh clone. -/
def respondWithError (req : Request) (errObj : Error) (fresh : Nat) :
    Option Response :=
  match req.id with
  | none => none
  | some _ =>
    some ⟨JSONRPCVersion, cloneID req.id fresh, none, some errObj⟩

/-- `dispatch`: route by method name, run the handler, suppress the
response for notifications, otherwise wrap the result or the error
(a nil result becomes `struct{}{}`). -/
def dispatch (s : ServerCore) (fresh : Nat) (req : Request) :
    Option Response × ServerCore :=
  match handlersTable req.method with
  | none =>
    (respondWithError req
      ⟨CodeMethodNotFound, "method " ++ goQuote req.method ++ " not found", none⟩
      fresh, s)
  | some h =>
    match h s req with
    | (result, errObj, s') =>
      match req.id with
      | none => (none, s')
      | some _ =>
        match errObj with
        | some e =>
          (some ⟨JSONRPCVersion, cloneID req.id fresh, none, some e⟩, s')
        | none =>
          (some ⟨JSONRPCVersion, cloneID req.id fresh,
            some ((result).getD .emptyObj), none⟩, s')

/-- One iteration of `Run` after a successful decode: the protocol-tag
check (`req.JSONRPC != "" && req.JSONRPC != JSONRPCVersion`) followed by
`dispatch`. -/
def runIteration (s : ServerCore) (fresh : Nat) (req : Request) :
    Option Response × ServerCore :=
  if req.jsonrpc ≠ "" ∧ req.jsonrpc ≠ JSONRPCVersion then
    (respondWithError req
      ⟨CodeInvalidRequest, "expected jsonrpc version " ++ JSONRPCVersion, none⟩
      fresh, s)
  else
    dispatch s fresh req

/-- How the input stream terminates after its successfully decoded
envelopes: a clean end of stream, or a decode failure with the rendered
message of the underlying error. -/
inductive StreamEnd where
  | eof
  | fail (msg : String)

/-- The `Run` loop over a stream that decodes to `msgs` and then
terminates with `e`: the responses written in order, and the loop's
return value (`none` models a nil error, `some m` the transport error).
Each iteration draws the next fresh buffer address. -/
def runLoop (s : ServerCore) (fresh : Nat) :
    List Request → StreamEnd → List Response × Option String
  | [], .eof => ([], none)
  | [], .fail m => ([], some ("decode request: " ++ m))
  | req :: rest, e =>
    match runIteration s fresh req with
    | (out, s') =>
      match runLoop s' (fresh + 1) rest e with
      | (outs, exit) => (out.toList ++ outs, exit)

/-- Spec-side description of the `tools/list` contract (§4.2 `list()`):
the definitions of exactly the successful registrations, in request
order, with the missing-schema normalisation the spec prescribes.  A
registration succeeds when its name is non-empty, its handler present,
and its name not seen before. -/
def specToolList : List String → List (ToolDefinition × Option ToolHandler) →
    List ToolDefinition
  | _, [] => []
  | seen, (d, h) :: rest =>
    if d.name ≠ "" ∧ h.isSome ∧ d.name ∉ seen then
      sanitize d :: specToolList (d.name :: seen) rest
    else
      specToolList seen rest

theorem sanitize_name (d : ToolDefinition) : (sanitize d).name = d.name := by
  unfold sanitize
  cases d.inputSchema <;> rfl

theorem NewRegistration_ok {d : ToolDefinition} {h : Option ToolHandler}
    {r : Registration} (hok : NewRegistration d h = .ok r) :
    r.definition = sanitize d ∧ d.name ≠ "" ∧ h.isSome := by
  unfold NewRegistration at hok
  by_cases hn : d.name = ""
  · rw [if_pos hn] at hok
    exact absurd hok (by simp)
  · rw [if_neg hn] at hok
    cases h with
    | none => exact absurd hok (by simp)
    | some f =>
      simp only [Except.ok.injEq] at hok
      exact ⟨by rw [← hok], hn, rfl⟩

theorem assocFind_append_left {α : Type} {l₁ : List (String × α)}
    (l₂ : List (String × α)) {n : String} {r : α}
    (h : assocFind l₁ n = some r) : assocFind (l₁ ++ l₂) n = some r := by
  induction l₁ with
  | nil => simp [assocFind] at h
  | cons hd tl ih =>
    obtain ⟨k, v⟩ := hd
    by_cases hk : k = n
    · simpa [assocFind, hk] using h
    · rw [List.cons_append]
      simp only [assocFind, if_neg hk] at h ⊢
      exact ih h

theorem assocFind_append_right {α : Type} {l₁ : List (String × α)}
    (l₂ : List (String × α)) {n : String}
    (h : assocFind l₁ n = none) : assocFind (l₁ ++ l₂) n = assocFind l₂ n := by
  induction l₁ with
  | nil => simp [assocFind]
  | cons hd tl ih =>
    obtain ⟨k, v⟩ := hd
    by_cases hk : k = n
    · simp [assocFind, hk] at h
    · rw [List.cons_append]
      simp only [assocFind, if_neg hk] at h ⊢
      exact ih h

theorem assocFind_eq_none_iff {α : Type} (l : List (String × α)) (n : String) :
    assocFind l n = none ↔ n ∉ keysOf l := by
  induction l with
  | nil => simp [assocFind, keysOf]
  | cons hd tl ih =>
    obtain ⟨k, v⟩ := hd
    by_cases hk : k = n
    · simp [assocFind, hk, keysOf]
    · simp only [assocFind, if_neg hk, keysOf, List.map_cons, List.mem_cons] at ih ⊢
      constructor
      · intro hnone hmem
        rcases hmem with hmem | hmem
        · exact hk hmem.symm
        · exact (ih.mp hnone) hmem
      · intro hmem
        exact ih.mpr (fun hx => hmem (Or.inr hx))

theorem assocFind_isSome_of_mem {α : Type} {l : List (String × α)} {n : String}
    (h : n ∈ keysOf l) : (assocFind l n).isSome := by
  cases hfind : assocFind l n with
  | none => exact absurd h ((assocFind_eq_none_iff l n).mp hfind)
  | some r => rfl

theorem keysOf_append {α : Type} (l₁ l₂ : List (String × α)) :
    keysOf (l₁ ++ l₂) = keysOf l₁ ++ keysOf l₂ := by
  simp [keysOf]

theorem nodup_keys_snoc {l : List (String × Registration)} {n : String}
    (r : Registration) (hnd : (keysOf l).Nodup) (hno : n ∉ keysOf l) :
    (keysOf (l ++ [(n, r)])).Nodup := by
  have heq : keysOf (l ++ [(n, r)]) = keysOf l ++ [n] := by
    simp [keysOf]
  rw [heq, List.nodup_append]
  refine ⟨hnd, List.nodup_singleton n, fun a ha hb => ?_⟩
  simp only [List.mem_singleton] at hb
  exact hno (hb ▸ ha)

theorem listTools_snoc (reg : Registry) (n : String) (r : Registration)
    (hfresh : assocFind reg.index n = none)
    (hmem : ∀ m ∈ reg.order, (assocFind reg.index m).isSome) :
    listTools ⟨reg.index ++ [(n, r)], reg.order ++ [n]⟩ =
      listTools reg ++ [r.definition] := by
  unfold listTools
  simp only [List.map_append, List.map_cons, List.map_nil]
  congr 1
  · refine List.map_congr_left (fun m hm => ?_)
    cases hsome : assocFind reg.index m with
    | none => exact absurd hsome (by simpa [hsome] using hmem m hm)
    | some rm => rw [assocFind_append_left _ hsome]
  · rw [assocFind_append_right _ hfresh]
    simp [assocFind]

/-- Every state reached by a registration sequence keeps the insertion
order equal to the map's key sequence, keeps the keys unique, and any
already present entry is left untouched. -/
theorem registerSeq_preserves (l : List (ToolDefinition × Option ToolHandler)) :
    ∀ (reg : Registry) (n : String),
      (assocFind reg.index n).isSome →
      assocFind (registerSeq reg l).index n = assocFind reg.index n := by
  induction l with
  | nil => intro reg n _; rfl
  | cons hd tl ih =>
    obtain ⟨d, h⟩ := hd
    intro reg n hsome
    show assocFind (registerSeq (Register reg d h).1 tl).index n = _
    cases hnr : NewRegistration d h with
    | error e =>
      have : (Register reg d h).1 = reg := by simp only [Register, hnr]
      rw [this]
      exact ih reg n hsome
    | ok r =>
      cases hfind : assocFind reg.index r.definition.name with
      | some r0 =>
        have : (Register reg d h).1 = reg := by
          simp only [Register, hnr, hfind]
        rw [this]
        exact ih reg n hsome
      | none =>
        have hreg : (Register reg d h).1 =
            ⟨reg.index ++ [(r.definition.name, r)],
             reg.order ++ [r.definition.name]⟩ := by
          simp only [Register, hnr, hfind]
        rw [hreg]
        cases hv : assocFind reg.index n with
        | none => exact absurd hv (by simp [hv] at hsome)
        | some v =>
          have happ : assocFind (reg.index ++ [(r.definition.name, r)]) n = some v :=
            assocFind_append_left _ hv
          have := ih ⟨reg.index ++ [(r.definition.name, r)],
                      reg.order ++ [r.definition.name]⟩ n (by rw [happ]; rfl)
          rw [this, happ]

theorem registerSeq_nodup (l : List (ToolDefinition × Option ToolHandler)) :
    ∀ reg : Registry, (keysOf reg.index).Nodup →
      (keysOf (registerSeq reg l).index).Nodup := by
  induction l with
  | nil => intro reg hnd; exact hnd
  | cons hd tl ih =>
    obtain ⟨d, h⟩ := hd
    intro reg hnd
    show (keysOf (registerSeq (Register reg d h).1 tl).index).Nodup
    cases hnr : NewRegistration d h with
    | error e =>
      have : (Register reg d h).1 = reg := by simp only [Register, hnr]
      rw [this]; exact ih reg hnd
    | ok r =>
      cases hfind : assocFind reg.index r.definition.name with
      | some r0 =>
        have : (Register reg d h).1 = reg := by
          simp only [Register, hnr, hfind]
        rw [this]; exact ih reg hnd
      | none =>
        have hreg : (Register reg d h).1 =
            ⟨reg.index ++ [(r.definition.name, r)],
             reg.order ++ [r.definition.name]⟩ := by
          simp only [Register, hnr, hfind]
        rw [hreg]
        refine ih _ ?_
        have hnotmem : r.definition.name ∉ keysOf reg.index :=
          (assocFind_eq_none_iff _ _).mp hfind
        exact nodup_keys_snoc r hnd hnotmem

/-- The central ordering lemma: running a registration sequence from any
well-formed registry state appends, to the current listing, exactly the
spec-side listing of the remaining sequence. -/
theorem registerSeq_listTools (l : List (ToolDefinition × Option ToolHandler)) :
    ∀ (reg : Registry) (seen : List String),
      reg.order = keysOf reg.index →
      (keysOf reg.index).Nodup →
      (∀ x, x ∈ seen ↔ x ∈ keysOf reg.index) →
      listTools (registerSeq reg l) = listTools reg ++ specToolList seen l := by
  induction l with
  | nil => intro reg seen _ _ _; simp [registerSeq, specToolList]
  | cons hd tl ih =>
    obtain ⟨d, h⟩ := hd
    intro reg seen hord hnd hseen
    show listTools (registerSeq (Register reg d h).1 tl) = _
    cases hnr : NewRegistration d h with
    | error e =>
      have hreg : (Register reg d h).1 = reg := by simp only [Register, hnr]
      have hcond : ¬(d.name ≠ "" ∧ h.isSome ∧ d.name ∉ seen) := by
        unfold NewRegistration at hnr
        by_cases hn : d.name = ""
        · exact fun hc => hc.1 hn
        · rw [if_neg hn] at hnr
          cases h with
          | none => exact fun hc => by simp at hc
          | some f => simp at hnr
      rw [hreg, specToolList, if_neg hcond]
      exact ih reg seen hord hnd hseen
    | ok r =>
      obtain ⟨hdef, hname, hsome⟩ := NewRegistration_ok hnr
      have hrname : r.definition.name = d.name := by rw [hdef, sanitize_name]
      cases hfind : assocFind reg.index r.definition.name with
      | some r0 =>
        have hreg : (Register reg d h).1 = reg := by
          simp only [Register, hnr, hfind]
        have hmemkeys : d.name ∈ keysOf reg.index := by
          by_contra hno
          rw [(assocFind_eq_none_iff _ _).mpr (by rwa [hrname])] at hfind
          exact absurd hfind (by simp)
        have hcond : ¬(d.name ≠ "" ∧ h.isSome ∧ d.name ∉ seen) := by
          intro hc
          exact hc.2.2 ((hseen d.name).mpr hmemkeys)
        rw [hreg, specToolList, if_neg hcond]
        exact ih reg seen hord hnd hseen
      | none =>
        have hreg : (Register reg d h).1 =
            ⟨reg.index ++ [(r.definition.name, r)],
             reg.order ++ [r.definition.name]⟩ := by
          simp only [Register, hnr, hfind]
        have hnotkeys : r.definition.name ∉ keysOf reg.index :=
          (assocFind_eq_none_iff _ _).mp hfind
        have hcond : d.name ≠ "" ∧ h.isSome ∧ d.name ∉ seen := by
          refine ⟨hname, hsome, fun hmem => ?_⟩
          exact hnotkeys (by rw [hrname]; exact (hseen d.name).mp hmem)
        rw [hreg, specToolList, if_pos hcond]
        have hsnoc := listTools_snoc reg r.definition.name r hfind
          (fun m hm => assocFind_isSome_of_mem (by rwa [← hord]))
        have hih := ih ⟨reg.index ++ [(r.definition.name, r)],
                        reg.order ++ [r.definition.name]⟩
          (d.name :: seen)
          (by simp [keysOf_append, keysOf, hord])
          (nodup_keys_snoc r hnd hnotkeys)
          (by
            intro x
            have hs := hseen x
            simp only [keysOf, List.map_append, List.map_cons, List.map_nil,
              List.mem_cons, List.mem_append, List.mem_singleton, hrname] at hs ⊢
            tauto)
        rw [hih, hsnoc, hdef]
        simp

/-- C3: For every sequence of successful tool registrations, tools/list
returns the tool definitions in exactly the order of registration,
deterministically and reproducibly across runs given the same
registration sequence.  Formally: for any registration request sequence
`l` applied to the empty registry, the builtin `tools/list` handler
returns exactly the spec-side listing `specToolList [] l` (the sanitized
definitions of the successful registrations in request order), as a pure
function of the registration sequence alone. -/
theorem toolsList_returns_registration_order
    (info : ServerInfo) (b : Bool) (req : Request)
    (l : List (ToolDefinition × Option ToolHandler)) :
    handleListTools ⟨registerSeq emptyRegistry l, info, b⟩ req =
      (some (.listToolsResult (specToolList [] l)), none,
       ⟨registerSeq emptyRegistry l, info, b⟩) := by
  have hmain := registerSeq_listTools l emptyRegistry []
    (by simp [emptyRegistry, keysOf]) (by simp [emptyRegistry, keysOf])
    (by simp [emptyRegistry, keysOf])
  unfold handleListTools
  rw [hmain]
  simp [listTools, emptyRegistry]

/-- C4: Registering a tool definition whose name already exists returns
a non-nil error and leaves the registry completely unchanged; names stay
unique along every registration sequence, and an existing entry is never
overwritten by a later registration. -/
theorem register_duplicate_rejected :
    (∀ (reg : Registry) (d : ToolDefinition) (h : Option ToolHandler),
       (assocFind reg.index d.name).isSome →
       (Register reg d h).1 = reg ∧ ((Register reg d h).2).isSome) ∧
    (∀ l : List (ToolDefinition × Option ToolHandler),
       (keysOf (registerSeq emptyRegistry l).index).Nodup) ∧
    (∀ (reg : Registry) (l : List (ToolDefinition × Option ToolHandler))
       (n : String), (assocFind reg.index n).isSome →
       assocFind (registerSeq reg l).index n = assocFind reg.index n) := by
  refine ⟨?_, ?_, ?_⟩
  · intro reg d h hdup
    cases hnr : NewRegistration d h with
    | error e =>
      exact ⟨by simp [Register, hnr], by simp [Register, hnr]⟩
    | ok r =>
      have hrname : r.definition.name = d.name := by
        rw [(NewRegistration_ok hnr).1, sanitize_name]
      cases hfind : assocFind reg.index r.definition.name with
      | some r0 =>
        exact ⟨by simp [Register, hnr, hfind], by simp [Register, hnr, hfind]⟩
      | none =>
        rw [hrname] at hfind
        rw [hfind] at hdup
        exact absurd hdup (by simp)
  · intro l
    exact registerSeq_nodup l emptyRegistry (by simp [emptyRegistry, keysOf])
  · intro reg l n hsome
    exact registerSeq_preserves l reg n hsome

/-- Closed instance of the duplicate-registration theorem: registering
the name "echo" twice fails the second registration and leaves the
one-entry registry unchanged. -/
theorem register_duplicate_rejected_witness :
    ((assocFind (Register emptyRegistry ⟨"echo", "", none⟩
        (some (fun _ => .ok none))).1.index "echo").isSome = true) ∧
    ((Register (Register emptyRegistry ⟨"echo", "", none⟩
        (some (fun _ => .ok none))).1 ⟨"echo", "other", none⟩
        (some (fun _ => .ok none))).1 =
      (Register emptyRegistry ⟨"echo", "", none⟩
        (some (fun _ => .ok none))).1 ∧
     ((Register (Register emptyRegistry ⟨"echo", "", none⟩
        (some (fun _ => .ok none))).1 ⟨"echo", "other", none⟩
        (some (fun _ => .ok none))).2).isSome) :=
  ⟨rfl, register_duplicate_rejected.1 _ _ _ rfl⟩

theorem respondWithError_id {req : Request} {errObj : Error} {fresh : Nat}
    {resp : Response} (h : respondWithError req errObj fresh = some resp) :
    resp.id = cloneID req.id fresh := by
  unfold respondWithError at h
  split at h
  · exact absurd h (by simp)
  · rw [← Option.some.inj h]

theorem dispatch_resp_id {s : ServerCore} {fresh : Nat} {req : Request}
    {resp : Response} (h : (dispatch s fresh req).1 = some resp) :
    resp.id = cloneID req.id fresh := by
  unfold dispatch at h
  split at h
  · exact respondWithError_id h
  · dsimp only at h
    split at h
    · exact absurd h (by simp)
    · split at h
      · rw [← Option.some.inj h]
      · rw [← Option.some.inj h]

theorem runIteration_resp_id {s : ServerCore} {fresh : Nat} {req : Request}
    {resp : Response} (h : (runIteration s fresh req).1 = some resp) :
    resp.id = cloneID req.id fresh := by
  unfold runIteration at h
  by_cases hv : req.jsonrpc ≠ "" ∧ req.jsonrpc ≠ JSONRPCVersion
  · rw [if_pos hv] at h
    exact respondWithError_id h
  · rw [if_neg hv] at h
    exact dispatch_resp_id h

/-- C1: For every request envelope that carries an identifier and gets a
response, the identifier of the written response is byte-for-byte equal
to the request's identifier, and `CloneID` allocates a fresh copy: the
response identifier lives at a different address than the request's
identifier buffer (the fresh address handed to the iteration is, by the
allocator discipline, above every live buffer's address). -/
theorem response_id_fresh_clone (s : ServerCore) (fresh : Nat)
    (req : Request) (sl : Slice) (resp : Response)
    (hid : req.id = some sl) (hfresh : sl.addr < fresh)
    (hout : (runIteration s fresh req).1 = some resp) :
    ∃ t : Slice, resp.id = some t ∧ t.data = sl.data ∧ t.addr ≠ sl.addr := by
  have hresp := runIteration_resp_id hout
  rw [hid] at hresp
  exact ⟨⟨fresh, sl.data⟩, hresp, rfl, ne_of_gt hfresh⟩

/-- Closed instance of `response_id_fresh_clone` at a concrete `ping`
request whose identifier is the byte string "1" stored at address 0. -/
theorem response_id_fresh_clone_witness :
    (⟨JSONRPCVersion, some ⟨0, [49]⟩, "ping", none⟩ : Request).id
        = some ⟨0, [49]⟩ ∧
    (0 : Nat) < 5 ∧
    ∃ t : Slice,
      (Response.mk JSONRPCVersion (some ⟨5, [49]⟩)
          (some (.pingResult ⟨"ok", ""⟩)) none).id = some t ∧
      t.data = ((⟨0, [49]⟩ : Slice)).data ∧ t.addr ≠ ((⟨0, [49]⟩ : Slice)).addr :=
  ⟨rfl, by decide,
   response_id_fresh_clone ⟨emptyRegistry, ⟨"go-mcp-server", "dev"⟩, false⟩ 5
     ⟨JSONRPCVersion, some ⟨0, [49]⟩, "ping", none⟩ ⟨0, [49]⟩
     ⟨JSONRPCVersion, some ⟨5, [49]⟩, some (.pingResult ⟨"ok", ""⟩), none⟩
     rfl (by decide) rfl⟩

/-- C2: For every envelope without an identifier (a notification), the
dispatcher writes nothing to the output sink — neither a success nor an
error response — whether the handler succeeds, fails, or the method is
unknown (and also when the protocol tag is invalid). -/
theorem notification_writes_nothing (s : ServerCore) (fresh : Nat)
    (req : Request) (hid : req.id = none) :
    (runIteration s fresh req).1 = none := by
  unfold runIteration
  by_cases hv : req.jsonrpc ≠ "" ∧ req.jsonrpc ≠ JSONRPCVersion
  · rw [if_pos hv]
    unfold respondWithError
    rw [hid]
  · rw [if_neg hv]
    unfold dispatch
    split
    · show respondWithError req _ fresh = none
      unfold respondWithError
      rw [hid]
    · dsimp only
      rw [hid]

/-- Closed instance of `notification_writes_nothing`: an unknown-method
notification produces no output. -/
theorem notification_writes_nothing_witness :
    (runIteration ⟨emptyRegistry, ⟨"go-mcp-server", "dev"⟩, false⟩ 0
      ⟨JSONRPCVersion, none, "does/not/exist", none⟩).1 = none :=
  notification_writes_nothing ⟨emptyRegistry, ⟨"go-mcp-server", "dev"⟩, false⟩ 0
    ⟨JSONRPCVersion, none, "does/not/exist", none⟩ rfl

/-- C8: an envelope whose protocol tag is present and not "2.0" gets a
-32600 error response when it carries an identifier and nothing when it
does not, and in both cases the loop goes on with the remaining
messages. -/
theorem version_mismatch_behavior (s : ServerCore) (fresh : Nat)
    (req : Request) (h1 : req.jsonrpc ≠ "") (h2 : req.jsonrpc ≠ JSONRPCVersion) :
    (∀ sl : Slice, req.id = some sl →
      (runIteration s fresh req).1 =
        some ⟨JSONRPCVersion, some ⟨fresh, sl.data⟩, none,
          some ⟨CodeInvalidRequest,
            "expected jsonrpc version " ++ JSONRPCVersion, none⟩⟩) ∧
    (req.id = none → (runIteration s fresh req).1 = none) ∧
    (∀ (rest : List Request) (e : StreamEnd),
      runLoop s fresh (req :: rest) e =
        (((runIteration s fresh req).1).toList ++
           (runLoop (runIteration s fresh req).2 (fresh + 1) rest e).1,
         (runLoop (runIteration s fresh req).2 (fresh + 1) rest e).2)) := by
  refine ⟨?_, ?_, ?_⟩
  · intro sl hsl
    unfold runIteration
    rw [if_pos ⟨h1, h2⟩]
    unfold respondWithError
    rw [hsl]
    rfl
  · intro hnone
    unfold runIteration
    rw [if_pos ⟨h1, h2⟩]
    unfold respondWithError
    rw [hnone]
  · intro rest e
    rcases hit : runIteration s fresh req with ⟨out, s'⟩
    rcases hrl : runLoop s' (fresh + 1) rest e with ⟨outs, ex⟩
    simp [runLoop, hit, hrl]

/-- Closed instance of `version_mismatch_behavior`: tag "1.0" with
identifier byte "4" at address 0 is answered with the -32600 error. -/
theorem version_mismatch_behavior_witness :
    ("1.0" : String) ≠ "" ∧ ("1.0" : String) ≠ JSONRPCVersion ∧
    (runIteration ⟨emptyRegistry, ⟨"go-mcp-server", "dev"⟩, false⟩ 7
      ⟨"1.0", some ⟨0, [52]⟩, "ping", none⟩).1 =
      some ⟨JSONRPCVersion, some ⟨7, [52]⟩, none,
        some ⟨CodeInvalidRequest,
          "expected jsonrpc version " ++ JSONRPCVersion, none⟩⟩ :=
  ⟨by decide, by decide,
   (version_mismatch_behavior ⟨emptyRegistry, ⟨"go-mcp-server", "dev"⟩, false⟩ 7
     ⟨"1.0", some ⟨0, [52]⟩, "ping", none⟩ (by decide) (by decide)).1
     ⟨0, [52]⟩ rfl⟩

theorem runLoop_eof_exit (msgs : List Request) :
    ∀ (s : ServerCore) (fresh : Nat), (runLoop s fresh msgs .eof).2 = none := by
  induction msgs with
  | nil => intro s fresh; rfl
  | cons req rest ih =>
    intro s fresh
    rcases hit : runIteration s fresh req with ⟨out, s'⟩
    rcases hrl : runLoop s' (fresh + 1) rest .eof with ⟨outs, ex⟩
    have hex := ih s' (fresh + 1)
    rw [hrl] at hex
    simp [runLoop, hit, hrl, hex]

theorem runLoop_fail_exit (msgs : List Request) (m : String) :
    ∀ (s : ServerCore) (fresh : Nat),
      (runLoop s fresh msgs (.fail m)).2 = some ("decode request: " ++ m) := by
  induction msgs with
  | nil => intro s fresh; rfl
  | cons req rest ih =>
    intro s fresh
    rcases hit : runIteration s fresh req with ⟨out, s'⟩
    rcases hrl : runLoop s' (fresh + 1) rest (.fail m) with ⟨outs, ex⟩
    have hex := ih s' (fresh + 1)
    rw [hrl] at hex
    simp [runLoop, hit, hrl, hex]

/-- C9: For every input stream, end-of-stream makes the `Run` loop
terminate with a nil error, any other decode failure makes it terminate
with a transport error wrapping the decode failure
(`fmt.Errorf("decode request: %w", err)`), and the terminal event itself
writes nothing. -/
theorem stream_end_behavior (s : ServerCore) (fresh : Nat)
    (msgs : List Request) (m : String) :
    ((runLoop s fresh msgs .eof).2 = none) ∧
    ((runLoop s fresh msgs (.fail m)).2 = some ("decode request: " ++ m)) ∧
    (∀ e : StreamEnd, (runLoop s fresh [] e).1 = []) := by
  refine ⟨runLoop_eof_exit msgs s fresh, runLoop_fail_exit msgs m s fresh, ?_⟩
  intro e
  cases e <;> rfl

theorem dispatch_tag_irrelevant (s : ServerCore) (fresh : Nat)
    (v v' : String) (id : Option Slice) (m : String) (p : Option Json) :
    dispatch s fresh ⟨v, id, m, p⟩ = dispatch s fresh ⟨v', id, m, p⟩ := by
  by_cases hm1 : m = "initialize"
  · subst hm1; rfl
  by_cases hm2 : m = "ping"
  · subst hm2; rfl
  by_cases hm3 : m = "tools/list"
  · subst hm3; rfl
  by_cases hm4 : m = "tools/call"
  · subst hm4; rfl
  have htab : handlersTable m = none := by
    simp [handlersTable, hm1, hm2, hm3, hm4]
  unfold dispatch
  dsimp only
  rw [htab]
  dsimp only
  unfold respondWithError
  cases id <;> rfl

/-- C10: an envelope whose protocol tag decodes to the empty string
(absent tag) bypasses the version check entirely: the iteration behaves
exactly as for a tag of "2.0", routing by method name and answering
normally instead of rejecting with -32600. -/
theorem missing_tag_dispatched_normally (s : ServerCore) (fresh : Nat)
    (id : Option Slice) (m : String) (p : Option Json) :
    runIteration s fresh ⟨"", id, m, p⟩ =
      runIteration s fresh ⟨JSONRPCVersion, id, m, p⟩ ∧
    runIteration s fresh ⟨"", id, m, p⟩ = dispatch s fresh ⟨"", id, m, p⟩ := by
  have hempty : runIteration s fresh ⟨"", id, m, p⟩ =
      dispatch s fresh ⟨"", id, m, p⟩ := by
    unfold runIteration
    rw [if_neg (by simp)]
  have hv2 : runIteration s fresh ⟨JSONRPCVersion, id, m, p⟩ =
      dispatch s fresh ⟨JSONRPCVersion, id, m, p⟩ := by
    unfold runIteration
    rw [if_neg (by simp)]
  refine ⟨?_, hempty⟩
  rw [hempty, hv2]
  exact dispatch_tag_irrelevant s fresh "" JSONRPCVersion id m p

theorem goQuoteChar_simple {c : Char} (h : simpleChar c) :
    goQuoteChar c = String.singleton c := by
  obtain ⟨h1, h2, h3, h4⟩ := h
  have hn : c ≠ '\n' := fun hc => by subst hc; exact absurd h3 (by decide)
  have ht : c ≠ '\t' := fun hc => by subst hc; exact absurd h3 (by decide)
  have hr : c ≠ '\r' := fun hc => by subst hc; exact absurd h3 (by decide)
  unfold goQuoteChar
  rw [if_neg h1, if_neg h2, if_neg hn, if_neg ht, if_neg hr, if_pos ⟨h3, h4⟩]

theorem goQuoteCore_simple (l : List Char) (h : ∀ c ∈ l, simpleChar c) :
    goQuoteCore l = ⟨l⟩ := by
  induction l with
  | nil => rfl
  | cons c cs ih =>
    show goQuoteChar c ++ goQuoteCore cs = _
    rw [goQuoteChar_simple (h c (List.mem_cons_self c cs)),
        ih (fun x hx => h x (List.mem_cons_of_mem c hx))]
    rfl

theorem goQuote_simple {s : String} (h : ∀ c ∈ s.data, simpleChar c) :
    goQuote s = "\"" ++ s ++ "\"" := by
  unfold goQuote
  rw [goQuoteCore_simple s.data h]

/-- C5: a `tools/call` request whose decoded params name a tool absent
from the registry is answered with code -32001 (`CodeApplicationError`)
and a message quoting the requested tool name
(`fmt.Sprintf("tool %q not registered", params.Name)`), and no tool
handler runs: the outcome is a constant depending only on the name. -/
theorem call_unknown_tool (s : ServerCore) (req : Request) (j : Json)
    (p : CallToolParams)
    (hp : req.params = some j) (hdec : decodeCallToolParams j = .ok p)
    (hname : p.name ≠ "") (hmiss : assocFind s.tools.index p.name = none) :
    handleCallTool s req =
      (none, some ⟨CodeApplicationError,
        "tool " ++ goQuote p.name ++ " not registered", none⟩, s) ∧
    ((∀ c ∈ p.name.data, simpleChar c) →
      "tool " ++ goQuote p.name ++ " not registered" =
        "tool \"" ++ p.name ++ "\" not registered") := by
  constructor
  · unfold handleCallTool
    rw [hp]
    dsimp only
    rw [hdec]
    dsimp only
    rw [if_neg hname, hmiss]
  · intro hsimple
    rw [goQuote_simple hsimple]
    apply String.ext
    simp [String.data_append, List.append_assoc]

/-- Closed instance of `call_unknown_tool` at name "nope", reproducing
the spec's example message. -/
theorem call_unknown_tool_witness :
    (handleCallTool ⟨emptyRegistry, ⟨"go-mcp-server", "dev"⟩, false⟩
        ⟨JSONRPCVersion, some ⟨0, [51]⟩, "tools/call",
          some (Json.obj [("name", Json.str "nope")])⟩ =
      (none, some ⟨CodeApplicationError,
        "tool " ++ goQuote "nope" ++ " not registered", none⟩,
        ⟨emptyRegistry, ⟨"go-mcp-server", "dev"⟩, false⟩)) ∧
    ("tool " ++ goQuote "nope" ++ " not registered" =
      "tool \"nope\" not registered") :=
  ⟨(call_unknown_tool ⟨emptyRegistry, ⟨"go-mcp-server", "dev"⟩, false⟩
      ⟨JSONRPCVersion, some ⟨0, [51]⟩, "tools/call",
        some (Json.obj [("name", Json.str "nope")])⟩
      (Json.obj [("name", Json.str "nope")]) ⟨"nope", none⟩
      rfl rfl (by decide) rfl).1,
   (call_unknown_tool ⟨emptyRegistry, ⟨"go-mcp-server", "dev"⟩, false⟩
      ⟨JSONRPCVersion, some ⟨0, [51]⟩, "tools/call",
        some (Json.obj [("name", Json.str "nope")])⟩
      (Json.obj [("name", Json.str "nope")]) ⟨"nope", none⟩
      rfl rfl (by decide) rfl).2 (by decide)⟩

/-- C6: when a registered tool's handler returns a non-nil Go error,
the request is answered with a JSON-RPC error (no success result) of
code -32002 (`CodeToolError`) whose message is exactly the error's
rendered string, the `data` field staying nil whatever structured
detail the Go error value carried. -/
theorem call_tool_handler_failure (s : ServerCore) (req : Request)
    (j : Json) (p : CallToolParams) (r : Registration) (e : GoError)
    (hp : req.params = some j) (hdec : decodeCallToolParams j = .ok p)
    (hname : p.name ≠ "") (hfind : assocFind s.tools.index p.name = some r)
    (hfail : r.handler p.arguments = .error e) :
    handleCallTool s req = (none, some ⟨CodeToolError, e.message, none⟩, s) := by
  unfold handleCallTool
  rw [hp]
  dsimp only
  rw [hdec]
  dsimp only
  rw [if_neg hname, hfind]
  dsimp only
  rw [hfail]

/-- Closed instance of `call_tool_handler_failure`: a handler failing
with message "boom" and a structured payload is reported as the -32002
error "boom" with nil data. -/
theorem call_tool_handler_failure_witness :
    handleCallTool
      ⟨⟨[("frob", ⟨⟨"frob", "d", some defaultSchema⟩,
           fun _ => .error ⟨"boom", some (Json.str "secret")⟩⟩)], ["frob"]⟩,
        ⟨"go-mcp-server", "dev"⟩, false⟩
      ⟨JSONRPCVersion, some ⟨0, [50]⟩, "tools/call",
        some (Json.obj [("name", Json.str "frob")])⟩ =
      (none, some ⟨CodeToolError, "boom", none⟩,
        ⟨⟨[("frob", ⟨⟨"frob", "d", some defaultSchema⟩,
             fun _ => .error ⟨"boom", some (Json.str "secret")⟩⟩)], ["frob"]⟩,
          ⟨"go-mcp-server", "dev"⟩, false⟩) :=
  call_tool_handler_failure _ _
    (Json.obj [("name", Json.str "frob")]) ⟨"frob", none⟩
    ⟨⟨"frob", "d", some defaultSchema⟩,
      fun _ => .error ⟨"boom", some (Json.str "secret")⟩⟩
    ⟨"boom", some (Json.str "secret")⟩
    rfl rfl (by decide) rfl rfl

/-- C7: a `tools/call` request whose params payload is absent, fails
strict decoding, or decodes with an empty name is answered with code
-32602 (`CodeInvalidParams`); in each case the outcome is a constant
independent of the registry contents, so the registry is not consulted
and no tool handler runs. -/
theorem call_tool_invalid_params (s : ServerCore) (req : Request) :
    (req.params = none →
      handleCallTool s req =
        (none, some ⟨CodeInvalidParams, "missing params", none⟩, s)) ∧
    (∀ (j : Json) (m : String), req.params = some j →
      decodeCallToolParams j = .error m →
      handleCallTool s req =
        (none, some ⟨CodeInvalidParams, m, none⟩, s)) ∧
    (∀ (j : Json) (p : CallToolParams), req.params = some j →
      decodeCallToolParams j = .ok p → p.name = "" →
      handleCallTool s req =
        (none, some ⟨CodeInvalidParams, "missing tool name", none⟩, s)) := by
  refine ⟨?_, ?_, ?_⟩
  · intro hp
    unfold handleCallTool
    rw [hp]
  · intro j m hp hdec
    unfold handleCallTool
    rw [hp]
    dsimp only
    rw [hdec]
  · intro j p hp hdec hname
    unfold handleCallTool
    rw [hp]
    dsimp only
    rw [hdec]
    dsimp only
    rw [if_pos hname]

/-- Closed instances of `call_tool_invalid_params`: missing params, an
unknown field rejected by strict decoding, and an empty tool name. -/
theorem call_tool_invalid_params_witness :
    (handleCallTool ⟨emptyRegistry, ⟨"go-mcp-server", "dev"⟩, false⟩
        ⟨JSONRPCVersion, some ⟨0, [49]⟩, "tools/call", none⟩ =
      (none, some ⟨CodeInvalidParams, "missing params", none⟩,
        ⟨emptyRegistry, ⟨"go-mcp-server", "dev"⟩, false⟩)) ∧
    (handleCallTool ⟨emptyRegistry, ⟨"go-mcp-server", "dev"⟩, false⟩
        ⟨JSONRPCVersion, some ⟨0, [49]⟩, "tools/call",
          some (Json.obj [("bogus", Json.num 1)])⟩ =
      (none, some ⟨CodeInvalidParams,
          "json: unknown field " ++ goQuote "bogus", none⟩,
        ⟨emptyRegistry, ⟨"go-mcp-server", "dev"⟩, false⟩)) ∧
    (handleCallTool ⟨emptyRegistry, ⟨"go-mcp-server", "dev"⟩, false⟩
        ⟨JSONRPCVersion, some ⟨0, [49]⟩, "tools/call", some (Json.obj [])⟩ =
      (none, some ⟨CodeInvalidParams, "missing tool name", none⟩,
        ⟨emptyRegistry, ⟨"go-mcp-server", "dev"⟩, false⟩)) :=
  ⟨(call_tool_invalid_params ⟨emptyRegistry, ⟨"go-mcp-server", "dev"⟩, false⟩
      ⟨JSONRPCVersion, some ⟨0, [49]⟩, "tools/call", none⟩).1 rfl,
   (call_tool_invalid_params ⟨emptyRegistry, ⟨"go-mcp-server", "dev"⟩, false⟩
      ⟨JSONRPCVersion, some ⟨0, [49]⟩, "tools/call",
        some (Json.obj [("bogus", Json.num 1)])⟩).2.1
      (Json.obj [("bogus", Json.num 1)]) ("json: unknown field " ++ goQuote "bogus")
      rfl rfl,
   (call_tool_invalid_params ⟨emptyRegistry, ⟨"go-mcp-server", "dev"⟩, false⟩
      ⟨JSONRPCVersion, some ⟨0, [49]⟩, "tools/call", some (Json.obj [])⟩).2.2
      (Json.obj []) ⟨"", none⟩ rfl rfl rfl⟩

end GoMcp
